import Mathlib

/-!
Verification of the Mobius LLM fine-tuning engine core
(`ml_core/data_loader.py`, `ml_core/training_script.py`,
`ml_core/training_utils.py`, `ml_core/convert_to_gguf.py`)
against its natural-language specification.

The Python sources are shallowly embedded: pure functions become Lean
functions, the filesystem effects of the export pipeline become explicit
state passing over an abstract file store, Python ints are modelled as ℤ,
and Python floats as ℚ (exact arithmetic; every concrete value used in a
theorem below is exactly representable as a double).
-/

namespace Mobius

/-! ## Python string helpers -/

/-- The ASCII whitespace characters recognised by Python's `str.strip()`
(we restrict to the ASCII range, which covers all inputs considered here). -/
def isPySpace (c : Char) : Bool :=
  c = ' ' || c = '\t' || c = '\n' || c = '\r' || c = '\x0b' || c = '\x0c'

/-- `pyIsBlank s = true` iff `s.strip()` is empty in Python, i.e. iff `s`
consists only of whitespace.  The loaders only ever use the truthiness of
`s.strip()`, never the stripped string itself. -/
def pyIsBlank (s : String) : Bool :=
  s.data.all isPySpace

/-- Python's `sep.join(xs)`. -/
def pyJoin (sep : String) : List String → String
  | [] => ""
  | [x] => x
  | x :: xs => x ++ sep ++ pyJoin sep xs

/-! ## JSON values, as produced by `json.loads` on a record line

Values are restricted to the scalar JSON types; key precedence and every
scenario in the specification depend only on key presence and on string
values, never on nested containers. -/

inductive JVal where
  | str (s : String)
  | num (n : ℤ)
  | bool (b : Bool)
  | null
deriving DecidableEq, Repr

/-- A parsed JSON object: the key/value pairs of the Python dict
(`json.loads` keeps one entry per key). -/
def JObj := List (String × JVal)

instance : DecidableEq JObj := by
  unfold JObj
  infer_instance

/-- Python `str()` of a JSON scalar, as used by f-string interpolation in
the loader templates. -/
def pyStr : JVal → String
  | .str s => s
  | .num n => toString n
  | .bool true => "True"
  | .bool false => "False"
  | .null => "None"

/-- Hexadecimal digit, lowercase, as used by `json.dumps` unicode escapes. -/
def hexDigit (n : ℕ) : Char :=
  if n < 10 then Char.ofNat (48 + n) else Char.ofNat (87 + n)

/-- A four-digit `\uXXXX` escape. -/
def uEscape4 (n : ℕ) : String :=
  "\\u" ++ String.mk [hexDigit (n / 4096 % 16), hexDigit (n / 256 % 16),
                      hexDigit (n / 16 % 16), hexDigit (n % 16)]

/-- `json.dumps` escape of a non-printable or non-ASCII character
(`ensure_ascii=True` default), with surrogate pairs above the BMP. -/
def uEscape (n : ℕ) : String :=
  if n ≤ 0xffff then uEscape4 n
  else
    let m := n - 0x10000
    uEscape4 (0xd800 + m / 0x400) ++ uEscape4 (0xdc00 + m % 0x400)

/-- `json.dumps` escaping of one character inside a string literal. -/
def jsonEscapeChar (c : Char) : String :=
  if c = '"' then "\\\""
  else if c = '\\' then "\\\\"
  else if c = '\n' then "\\n"
  else if c = '\t' then "\\t"
  else if c = '\r' then "\\r"
  else if c = '\x08' then "\\b"
  else if c = '\x0c' then "\\f"
  else if c.toNat < 0x20 || 0x7e < c.toNat then uEscape c.toNat
  else String.singleton c

/-- A JSON string literal as rendered by `json.dumps`. -/
def jsonQuote (s : String) : String :=
  "\"" ++ String.join (s.data.map jsonEscapeChar) ++ "\""

/-- A JSON scalar as rendered by `json.dumps`. -/
def jsonValStr : JVal → String
  | .str s => jsonQuote s
  | .num n => toString n
  | .bool true => "true"
  | .bool false => "false"
  | .null => "null"

/-- Python `json.dumps(obj)` with the default separators. -/
def jsonDumps (o : JObj) : String :=
  "\x7b" ++ pyJoin ", " (o.map fun kv => jsonQuote kv.1 ++ ": " ++ jsonValStr kv.2) ++ "\x7d"

/-! ## The record-json (JSONL) loaders, `data_loader.py` -/

/-- One raw line of a JSONL file, classified by what `line.strip()` and
`json.loads(line)` do with it: whitespace-only, a parsed JSON object, or a
line on which `json.loads` raises (the decode error carries the offending
line as its document). -/
inductive Line where
  | blank
  | obj (o : JObj)
  | malformed (raw : String)
deriving DecidableEq

def isMalformedLine : Line → Bool
  | .malformed _ => true
  | _ => false

/-- Dict key membership, `k in obj`. -/
def hasKey (o : JObj) (k : String) : Bool :=
  (o.lookup k).isSome

/-- Dict indexing `obj[k]` (only used under a `hasKey` guard). -/
def jGet (o : JObj) (k : String) : JVal :=
  (o.lookup k).getD JVal.null

/-- The error raised while loading a dataset; `json.loads` raises a decode
error whose `doc` attribute is the offending line. -/
inductive IngestError where
  | malformedRecord (raw : String)
deriving DecidableEq

instance {ε α : Type} [DecidableEq ε] [DecidableEq α] : DecidableEq (Except ε α) := fun
  | .ok a, .ok b =>
    if h : a = b then .isTrue (by rw [h]) else .isFalse (by intro hh; cases hh; exact h rfl)
  | .ok _, .error _ => .isFalse (by intro h; cases h)
  | .error _, .ok _ => .isFalse (by intro h; cases h)
  | .error e, .error f =>
    if h : e = f then .isTrue (by rw [h]) else .isFalse (by intro hh; cases hh; exact h rfl)

/-- The text a JSONL record line is mapped to (shared key-precedence logic
of `load_jsonl`; the value of a bare `text` key is rendered with `pyStr`,
matching how a string value — the only case the data contract uses — is
stored verbatim). -/
def recordText (o : JObj) : String :=
  if hasKey o "instruction" && hasKey o "response" then
    "### Instruction:\n" ++ pyStr (jGet o "instruction") ++
      "\n\n### Response:\n" ++ pyStr (jGet o "response")
  else if hasKey o "input" && hasKey o "output" then
    "### Input:\n" ++ pyStr (jGet o "input") ++
      "\n\n### Output:\n" ++ pyStr (jGet o "output")
  else if hasKey o "text" then pyStr (jGet o "text")
  else jsonDumps o

/-- `load_jsonl` (materialized): skip blank lines, map each object line
through the key precedence, abort with the decode error on a malformed
line. -/
def load_jsonl : List Line → Except IngestError (List String)
  | [] => .ok []
  | .blank :: rest => load_jsonl rest
  | .malformed raw :: _ => .error (.malformedRecord raw)
  | .obj o :: rest =>
    let text :=
      if hasKey o "instruction" && hasKey o "response" then
        "### Instruction:\n" ++ pyStr (jGet o "instruction") ++
          "\n\n### Response:\n" ++ pyStr (jGet o "response")
      else if hasKey o "input" && hasKey o "output" then
        "### Input:\n" ++ pyStr (jGet o "input") ++
          "\n\n### Output:\n" ++ pyStr (jGet o "output")
      else if hasKey o "text" then pyStr (jGet o "text")
      else jsonDumps o
    match load_jsonl rest with
    | .error e => .error e
    | .ok ts => .ok (text :: ts)

/-- `load_jsonl_streaming`: the generator applies, per line, logic that is
duplicated verbatim from the materialized loader; consuming the stream to
the end yields the same kind of result. -/
def load_jsonl_streaming : List Line → Except IngestError (List String)
  | [] => .ok []
  | .blank :: rest => load_jsonl_streaming rest
  | .malformed raw :: _ => .error (.malformedRecord raw)
  | .obj o :: rest =>
    let text :=
      if hasKey o "instruction" && hasKey o "response" then
        "### Instruction:\n" ++ pyStr (jGet o "instruction") ++
          "\n\n### Response:\n" ++ pyStr (jGet o "response")
      else if hasKey o "input" && hasKey o "output" then
        "### Input:\n" ++ pyStr (jGet o "input") ++
          "\n\n### Output:\n" ++ pyStr (jGet o "output")
      else if hasKey o "text" then pyStr (jGet o "text")
      else jsonDumps o
    match load_jsonl_streaming rest with
    | .error e => .error e
    | .ok ts => .ok (text :: ts)

/-! ## The tabular and free-text loaders, `data_loader.py` -/

/-- `load_csv`, embedded at the level of the rows produced by
`csv.DictReader` (header-keyed cells; a missing cell is `none`, matching
the reader's `None` restval).  A cell contributes a part iff its value is
truthy and non-blank after stripping; a row with no parts is dropped. -/
def load_csv (rows : List (List (String × Option String))) : List String :=
  rows.filterMap fun row =>
    let text_parts := row.filterMap fun kv =>
      match kv.2 with
      | none => none
      | some v => if ¬(v = "") ∧ pyIsBlank v = false then some (kv.1 ++ ": " ++ v) else none
    if text_parts.isEmpty then none else some (pyJoin "\n" text_parts)

/-- The chunk slices `full_text[i:i+chunk_size]` for `i` in
`range(0, len(full_text), chunk_size)`, computed with a fuel argument
(one chunk consumes at least one character, so `l.length` steps suffice
for a positive chunk size). -/
def chunksOfFuel (cs : ℕ) : ℕ → List Char → List (List Char)
  | 0, _ => []
  | _, [] => []
  | fuel + 1, l => l.take cs :: chunksOfFuel cs fuel (l.drop cs)

/-- All chunk slices of the text.  (Python raises on a zero step; the
zero case is never reached — the source's chunk size is the constant
2048.) -/
def chunksOf (cs : ℕ) (l : List Char) : List (List Char) :=
  if cs = 0 then [] else chunksOfFuel cs l.length l

/-- `load_txt`: split the file into fixed-size chunks, dropping chunks
that are whitespace-only. -/
def load_txt (full_text : String) (chunk_size : ℕ) : List String :=
  (chunksOf chunk_size full_text.data).filterMap fun chunk =>
    if pyIsBlank (String.mk chunk) = true then none else some (String.mk chunk)

/-! ## The streaming step estimator, `training_script.py` lines 263-278 -/

/-- Exact model of Python `math.ceil(a / b)` for integers with `b > 0`:
`⌈a / b⌉ = -⌊-a / b⌋`, written with Euclidean division (which is floor
division for a positive divisor).  `pyCeilDiv_eq_ceil` below relates this
to the rational ceiling. -/
def pyCeilDiv (a b : ℤ) : ℤ :=
  -((-a) / b)

/-- The streaming `max_steps` computation of `main`: substitute 512 for a
non-positive approximate count, then
`ceil(ceil(max(1, N) / max(1, batch_size)) / max(1, grad_accum))` updates
per epoch, times `max(1, epochs)`, clamped to at least 1. -/
def calcMaxSteps (N batch_size grad_accum epochs : ℤ) : ℤ :=
  let num_examples := if N ≤ 0 then 512 else N
  let num_batches_per_epoch := pyCeilDiv (max 1 num_examples) (max 1 batch_size)
  let num_update_steps_per_epoch := pyCeilDiv num_batches_per_epoch (max 1 grad_accum)
  max 1 (num_update_steps_per_epoch * max 1 epochs)

/-- Modelled from the spec: `max_steps = ceil(ceil(N / batch_size) /
grad_accum) * epochs`, where a non-positive `N` is replaced by the fixed
default 512. -/
def specMaxSteps (N batch_size grad_accum epochs : ℤ) : ℤ :=
  let n := if N ≤ 0 then 512 else N
  pyCeilDiv (pyCeilDiv n batch_size) grad_accum * epochs

/-! ## `calculate_eta`, `training_utils.py` -/

/-- Python `int()` truncation of a float (modelled exactly on ℚ):
truncation toward zero. -/
def pyInt (q : ℚ) : ℤ :=
  if q < 0 then ⌈q⌉ else ⌊q⌋

/-- Python `f"\x7bn:02d\x7d"`: decimal rendering zero-padded to a minimum
width of two (the sign counts toward the width). -/
def pyFormat02 (n : ℤ) : String :=
  let s := toString n
  if s.length < 2 then "0" ++ s else s

/-- The `HH:MM:SS` rendering applied to `remaining_seconds` (Python `//`
and `%` are floor division and floor modulus). -/
def formatHMS (remaining_seconds : ℤ) : String :=
  let hours := remaining_seconds.fdiv 3600
  let minutes := (remaining_seconds.fmod 3600).fdiv 60
  let seconds := remaining_seconds.fmod 60
  pyFormat02 hours ++ ":" ++ pyFormat02 minutes ++ ":" ++ pyFormat02 seconds

/-- `calculate_eta(current_step, total_steps, elapsed_time)`. -/
def calculate_eta (current_step total_steps : ℤ) (elapsed_time : ℚ) : String :=
  if current_step = 0 then "N/A"
  else
    let avg_time_per_step := elapsed_time / (current_step : ℚ)
    let remaining_steps : ℤ := total_steps - current_step
    let remaining_seconds : ℤ := pyInt (avg_time_per_step * (remaining_steps : ℚ))
    formatHMS remaining_seconds

/-- The per-input content of the ETA claim: at step 0 the sentinel, and
otherwise a rendering of a non-negative remaining-seconds value equal to
the truncated product of the per-step average and the remaining steps. -/
def etaClaimAt (current_step total_steps : ℤ) (elapsed_time : ℚ) : Prop :=
  if current_step = 0 then calculate_eta current_step total_steps elapsed_time = "N/A"
  else
    let r := pyInt (elapsed_time / (current_step : ℚ) * ((total_steps - current_step : ℤ) : ℚ))
    0 ≤ r ∧ calculate_eta current_step total_steps elapsed_time = formatHMS r

/-! ## `suggest_lora_target_modules`, `training_utils.py` -/

/-- Python's substring test `needle in haystack`, on character lists. -/
def containsSub (needle : List Char) : List Char → Bool
  | [] => needle.isEmpty
  | c :: rest => needle.isPrefixOf (c :: rest) || containsSub needle rest

/-- The ordered target-module heuristic: the module names are joined with
newlines and the chain of substring tests picks the target list. -/
def suggest_lora_target_modules (names : List String) : List String :=
  let joined := pyJoin "\n" names
  if containsSub "q_proj".data joined.data && containsSub "v_proj".data joined.data then
    ["q_proj", "k_proj", "v_proj", "o_proj"]
  else if containsSub "c_attn".data joined.data then ["c_attn"]
  else if containsSub "query_key_value".data joined.data then ["query_key_value"]
  else ["q_proj", "v_proj"]

/-! ## The export pipeline, `convert_to_gguf.py` -/

/-- What a path holds in the abstract file store: the F16 conversion
output, the quantizer output, or any pre-existing file (model directory,
quantizer binary, ...). -/
inductive FileData where
  | f16
  | quant
  | plain
deriving DecidableEq

/-- The abstract file store of the export pipeline. -/
def FS := String → Option FileData

def fsWrite (fs : FS) (p : String) (d : FileData) : FS :=
  fun q => if q = p then some d else fs q

def fsRemove (fs : FS) (p : String) : FS :=
  fun q => if q = p then none else fs q

/-- The fixed ordered list of candidate quantizer binary locations probed
by `check_llama_cpp`. -/
def possible_quantize_paths : List String :=
  ["ml_core/llama.cpp/quantize",
   "ml_core/llama.cpp/quantize.exe",
   "ml_core/llama.cpp/llama-quantize",
   "ml_core/llama.cpp/llama-quantize.exe",
   "ml_core/llama.cpp/build/bin/Release/llama-quantize.exe",
   "ml_core/llama.cpp/build/bin/Release/quantize.exe"]

/-- `check_llama_cpp`: the first candidate path that exists, if any. -/
def check_llama_cpp (fs : FS) : Option String :=
  possible_quantize_paths.find? fun p => (fs p).isSome

/-- One left-to-right, non-overlapping replacement pass with a fuel
argument (each step consumes at least one character for a non-empty
needle, so `l.length` steps suffice). -/
def replaceFuel (needle repl : List Char) : ℕ → List Char → List Char
  | _, [] => []
  | 0, l => l
  | fuel + 1, c :: rest =>
    if needle.isPrefixOf (c :: rest) then
      repl ++ replaceFuel needle repl fuel ((c :: rest).drop needle.length)
    else
      c :: replaceFuel needle repl fuel rest

/-- Python `s.replace(needle, repl)` for a non-empty needle (the source
only ever replaces the literal ".gguf"). -/
def pyReplace (s needle repl : String) : String :=
  String.mk (replaceFuel needle.data repl.data s.data.length s.data)

/-- The temp path `output_file.replace('.gguf', '_f16_temp.gguf')`. -/
def f16TempPath (output_file : String) : String :=
  pyReplace output_file ".gguf" "_f16_temp.gguf"

/-- Whether a path is a `*_f16_temp` intermediate. -/
def isF16TempName (p : String) : Bool :=
  "_f16_temp.gguf".data.isSuffixOf p.data

/-- The export driver `main` of `convert_to_gguf.py`, as a state
transformer over the file store.  The external tools are represented by
their success flags: `convertOk` — the F16 conversion writes its output
and reports success; `quantOk` — the quantizer writes its output and
reports success.  Returns the exit status (`true` = exit code 0) and the
final store. -/
def exportMain (fs : FS) (model_dir output_file : String)
    (convertOk quantOk : Bool) : Bool × FS :=
  if (fs model_dir).isNone then (false, fs)
  else
    let quantize_binary := check_llama_cpp fs
    let temp_f16_file := if quantize_binary.isNone then output_file else f16TempPath output_file
    if convertOk = false then (false, fs)
    else
      let fs1 := fsWrite fs temp_f16_file FileData.f16
      match quantize_binary with
      | some _ =>
        if quantOk = false then (false, fsRemove fs1 temp_f16_file)
        else
          let fs2 := fsWrite fs1 output_file FileData.quant
          let fs3 := if (fs2 temp_f16_file).isSome then fsRemove fs2 temp_f16_file else fs2
          if (fs3 output_file).isSome then (true, fs3) else (false, fs3)
      | none =>
        if (fs1 output_file).isSome then (true, fs1) else (false, fs1)

/-- A file store with only the merged model directory. -/
def fsNoQuant : FS :=
  fun p => if p = "merged" then some FileData.plain else none

/-- A file store with the merged model directory and a quantizer binary at
the first probed location. -/
def fsWithQuant : FS :=
  fun p => if p = "merged" ∨ p = "ml_core/llama.cpp/quantize" then some FileData.plain else none

/-! ## Helper lemmas: ceiling division -/

theorem pyCeilDiv_eq_ceil (a b : ℤ) (hb : 0 < b) : pyCeilDiv a b = ⌈(a : ℚ) / (b : ℚ)⌉ := by
  have hceil : ⌈(a : ℚ) / (b : ℚ)⌉ = -⌊-((a : ℚ) / (b : ℚ))⌋ := by
    rw [Int.floor_neg, neg_neg]
  rw [pyCeilDiv, hceil, ← neg_div, ← Int.cast_neg]
  have hbn : ((b.toNat : ℕ) : ℚ) = (b : ℚ) := by
    exact_mod_cast congrArg (fun z : ℤ => (z : ℚ)) (Int.toNat_of_nonneg hb.le)
  rw [← hbn, Rat.floor_intCast_div_natCast, Int.toNat_of_nonneg hb.le]

theorem one_le_pyCeilDiv {a b : ℤ} (ha : 1 ≤ a) (hb : 1 ≤ b) : 1 ≤ pyCeilDiv a b := by
  have h : (-a) / b < 0 := by
    by_contra hcon
    push_neg at hcon
    have := (Int.le_ediv_iff_mul_le (by omega)).1 hcon
    omega
  rw [pyCeilDiv]
  omega

theorem pyCeilDiv_le_pyCeilDiv_left {a₁ a₂ b : ℤ} (h : a₁ ≤ a₂) (hb : 0 < b) :
    pyCeilDiv a₁ b ≤ pyCeilDiv a₂ b := by
  have := Int.ediv_le_ediv hb (neg_le_neg h)
  rw [pyCeilDiv, pyCeilDiv]
  omega

theorem pyCeilDiv_le_pyCeilDiv_right {a b c : ℤ} (ha : 0 ≤ a) (hb : 0 < b) (hbc : b ≤ c) :
    pyCeilDiv a c ≤ pyCeilDiv a b := by
  have hc : 0 < c := lt_of_lt_of_le hb hbc
  have hnp : (-a) / b ≤ 0 := by
    by_contra hcon
    push_neg at hcon
    have := (Int.le_ediv_iff_mul_le hb).1 hcon
    omega
  have h1 : (-a) / b * b ≤ -a := Int.ediv_mul_le _ (ne_of_gt hb)
  have h2 : (-a) / b * c ≤ (-a) / b * b := mul_le_mul_of_nonpos_left hbc hnp
  have h3 : (-a) / b ≤ (-a) / c := (Int.le_ediv_iff_mul_le hc).2 (le_trans h2 h1)
  rw [pyCeilDiv, pyCeilDiv]
  omega

/-- The updates-per-epoch value of the estimator is always at least 1. -/
theorem one_le_updates_per_epoch (N bs ga : ℤ) :
    1 ≤ pyCeilDiv (pyCeilDiv (max 1 (if N ≤ 0 then 512 else N)) (max 1 bs)) (max 1 ga) :=
  one_le_pyCeilDiv (one_le_pyCeilDiv (le_max_left 1 _) (le_max_left 1 _)) (le_max_left 1 _)

/-! ## Claim theorems: step estimator -/

/-- C2: when the dataset is streaming, the step budget is
`ceil(ceil(N / batch_size) / grad_accum) * epochs` with the fixed default
`N = 512` substituted for a non-positive approximate count (for any
positive hyperparameters, the code's defensive `max(1, ·)` clamps are
identities); in particular `N = 0, batch_size = 1, grad_accum = 16,
epochs = 15` yields `max_steps = 480`. -/
theorem streaming_max_steps_formula :
    (∀ N batch_size grad_accum epochs : ℤ,
        1 ≤ batch_size → 1 ≤ grad_accum → 1 ≤ epochs →
        calcMaxSteps N batch_size grad_accum epochs =
          specMaxSteps N batch_size grad_accum epochs) ∧
    calcMaxSteps 0 1 16 15 = 480 := by
  constructor
  · intro N bs ga ep hbs hga hep
    have hne : 1 ≤ (if N ≤ 0 then 512 else N) := by split <;> omega
    simp only [calcMaxSteps, specMaxSteps]
    rw [max_eq_right hbs, max_eq_right hga, max_eq_right hep, max_eq_right hne]
    have hnu : 1 ≤ pyCeilDiv (pyCeilDiv (if N ≤ 0 then 512 else N) bs) ga :=
      one_le_pyCeilDiv (one_le_pyCeilDiv hne hbs) hga
    have h1 : (1 : ℤ) * 1 ≤ pyCeilDiv (pyCeilDiv (if N ≤ 0 then 512 else N) bs) ga * ep :=
      mul_le_mul hnu hep zero_le_one (by omega)
    rw [max_eq_right (by simpa using h1)]
  · decide

/-- Witness for C2 at the scenario input. -/
theorem streaming_max_steps_formula_witness :
    calcMaxSteps 0 1 16 15 = specMaxSteps 0 1 16 15 ∧ calcMaxSteps 0 1 16 15 = 480 :=
  ⟨streaming_max_steps_formula.1 0 1 16 15 (by decide) (by decide) (by decide),
   streaming_max_steps_formula.2⟩

/-- C8: the streaming step estimate is strictly increasing in `epochs`
(for `epochs ≥ 1`) and never increases when `batch_size` increases,
holding the other inputs fixed. -/
theorem step_estimate_monotonic :
    (∀ N batch_size grad_accum epochs₁ epochs₂ : ℤ,
        1 ≤ epochs₁ → epochs₁ < epochs₂ →
        calcMaxSteps N batch_size grad_accum epochs₁ <
          calcMaxSteps N batch_size grad_accum epochs₂) ∧
    (∀ N batch_size₁ batch_size₂ grad_accum epochs : ℤ,
        batch_size₁ ≤ batch_size₂ →
        calcMaxSteps N batch_size₂ grad_accum epochs ≤
          calcMaxSteps N batch_size₁ grad_accum epochs) := by
  constructor
  · intro N bs ga ep₁ ep₂ hep hlt
    have hnu : 1 ≤ pyCeilDiv (pyCeilDiv (max 1 (if N ≤ 0 then 512 else N)) (max 1 bs)) (max 1 ga) :=
      one_le_updates_per_epoch N bs ga
    simp only [calcMaxSteps]
    rw [max_eq_right hep, max_eq_right (show (1:ℤ) ≤ ep₂ by omega)]
    have k1 : (1 : ℤ) ≤
        pyCeilDiv (pyCeilDiv (max 1 (if N ≤ 0 then 512 else N)) (max 1 bs)) (max 1 ga) * ep₁ := by
      have := mul_le_mul hnu hep zero_le_one (le_trans zero_le_one hnu)
      simpa using this
    have k2 : (1 : ℤ) ≤
        pyCeilDiv (pyCeilDiv (max 1 (if N ≤ 0 then 512 else N)) (max 1 bs)) (max 1 ga) * ep₂ := by
      have := mul_le_mul hnu (show (1:ℤ) ≤ ep₂ by omega) zero_le_one (le_trans zero_le_one hnu)
      simpa using this
    rw [max_eq_right k1, max_eq_right k2]
    exact mul_lt_mul_of_pos_left hlt (lt_of_lt_of_le zero_lt_one hnu)
  · intro N bs₁ bs₂ ga ep hbs
    have hmono :
        pyCeilDiv (pyCeilDiv (max 1 (if N ≤ 0 then 512 else N)) (max 1 bs₂)) (max 1 ga) ≤
          pyCeilDiv (pyCeilDiv (max 1 (if N ≤ 0 then 512 else N)) (max 1 bs₁)) (max 1 ga) :=
      pyCeilDiv_le_pyCeilDiv_left
        (pyCeilDiv_le_pyCeilDiv_right
          (le_trans zero_le_one (le_max_left 1 _))
          (lt_of_lt_of_le zero_lt_one (le_max_left 1 _))
          (max_le_max le_rfl hbs))
        (lt_of_lt_of_le zero_lt_one (le_max_left 1 _))
    simp only [calcMaxSteps]
    exact max_le_max le_rfl
      (mul_le_mul_of_nonneg_right hmono (le_trans zero_le_one (le_max_left 1 _)))

/-- Witness for C8 at concrete hyperparameters. -/
theorem step_estimate_monotonic_witness :
    calcMaxSteps 100 1 8 1 < calcMaxSteps 100 1 8 2 ∧
      calcMaxSteps 100 2 8 3 ≤ calcMaxSteps 100 1 8 3 :=
  ⟨step_estimate_monotonic.1 100 1 8 1 2 (by decide) (by decide),
   step_estimate_monotonic.2 100 1 2 8 3 (by decide)⟩

/-- C10: the streaming step budget is at least 1 for every approximate
count and all integer hyperparameters, including non-positive ones. -/
theorem max_steps_positive (N batch_size grad_accum epochs : ℤ) :
    1 ≤ calcMaxSteps N batch_size grad_accum epochs := by
  simp only [calcMaxSteps]
  exact le_max_left 1 _

/-! ## Helper lemmas: blank strings -/

theorem strData_append (s t : String) : (s ++ t).data = s.data ++ t.data :=
  rfl

theorem pyIsBlank_append (s t : String) :
    pyIsBlank (s ++ t) = (pyIsBlank s && pyIsBlank t) := by
  simp [pyIsBlank, strData_append, List.all_append]

/-- A cell rendering `key ++ ": " ++ value` is never whitespace-only
(it contains a colon). -/
theorem csv_part_not_blank (k v : String) : pyIsBlank (k ++ ": " ++ v) = false := by
  rw [pyIsBlank_append, pyIsBlank_append]
  have h : pyIsBlank ": " = false := rfl
  simp [h]

/-- A newline-join whose first part is not blank is not blank. -/
theorem pyJoin_not_blank (p : String) (rest : List String) (hp : pyIsBlank p = false) :
    pyIsBlank (pyJoin "\n" (p :: rest)) = false := by
  cases rest with
  | nil => simpa [pyJoin] using hp
  | cons q qs => simp [pyJoin, pyIsBlank_append, hp]

/-! ## Claim theorems: record-json ingestion -/

/-- C1: over a valid record-json file (no malformed line), materialized
and streaming ingestion produce the same ordered sequence of record
texts. -/
theorem ingest_mode_invariance (file : List Line)
    (h : ∀ l ∈ file, isMalformedLine l = false) :
    ∃ ts, load_jsonl file = Except.ok ts ∧ load_jsonl_streaming file = Except.ok ts := by
  induction file with
  | nil => exact ⟨[], rfl, rfl⟩
  | cons l rest ih =>
    have hrest : ∀ x ∈ rest, isMalformedLine x = false :=
      fun x hx => h x (List.mem_cons_of_mem _ hx)
    obtain ⟨ts, h1, h2⟩ := ih hrest
    cases l with
    | blank =>
      exact ⟨ts, by simpa [load_jsonl] using h1, by simpa [load_jsonl_streaming] using h2⟩
    | malformed raw =>
      exact absurd (h _ (List.mem_cons_self _ _)) (by simp [isMalformedLine])
    | obj o =>
      simp only [load_jsonl, load_jsonl_streaming, h1, h2]
      exact ⟨_, rfl, rfl⟩

/-- Witness for C1 on a concrete valid file. -/
theorem ingest_mode_invariance_witness :
    ∃ ts, load_jsonl [Line.blank, Line.obj [("text", JVal.str "hello")]] = Except.ok ts ∧
      load_jsonl_streaming [Line.blank, Line.obj [("text", JVal.str "hello")]] = Except.ok ts :=
  ingest_mode_invariance _ (by decide)

/-- C4: the record text follows the fixed key precedence
(instruction/response, then input/output, then text, then the serialized
object), and the two-line scenario from the specification yields exactly
the two expected records. -/
theorem jsonl_key_precedence :
    (∀ o : JObj, hasKey o "instruction" = true → hasKey o "response" = true →
        load_jsonl [Line.obj o] =
          Except.ok ["### Instruction:\n" ++ pyStr (jGet o "instruction") ++
            "\n\n### Response:\n" ++ pyStr (jGet o "response")]) ∧
    (∀ o : JObj, (hasKey o "instruction" && hasKey o "response") = false →
        hasKey o "input" = true → hasKey o "output" = true →
        load_jsonl [Line.obj o] =
          Except.ok ["### Input:\n" ++ pyStr (jGet o "input") ++
            "\n\n### Output:\n" ++ pyStr (jGet o "output")]) ∧
    (∀ o : JObj, (hasKey o "instruction" && hasKey o "response") = false →
        (hasKey o "input" && hasKey o "output") = false →
        hasKey o "text" = true →
        load_jsonl [Line.obj o] = Except.ok [pyStr (jGet o "text")]) ∧
    (∀ o : JObj, (hasKey o "instruction" && hasKey o "response") = false →
        (hasKey o "input" && hasKey o "output") = false →
        hasKey o "text" = false →
        load_jsonl [Line.obj o] = Except.ok [jsonDumps o]) ∧
    load_jsonl [Line.obj [("instruction", JVal.str "Hi"), ("response", JVal.str "Hello")],
                Line.obj [("text", JVal.str "raw")]] =
      Except.ok ["### Instruction:\nHi\n\n### Response:\nHello", "raw"] := by
  refine ⟨?_, ?_, ?_, ?_, ?_⟩
  · intro o h1 h2
    simp [load_jsonl, h1, h2]
  · intro o h0 h1 h2
    simp [load_jsonl, h0, h1, h2]
  · intro o h0 h1 h2
    simp [load_jsonl, h0, h1, h2]
  · intro o h0 h1 h2
    simp [load_jsonl, h0, h1, h2]
  · rfl

/-- Witness for C4, one input per precedence branch. -/
theorem jsonl_key_precedence_witness :
    load_jsonl [Line.obj [("instruction", JVal.str "a"), ("response", JVal.str "b")]] =
      Except.ok ["### Instruction:\na\n\n### Response:\nb"] ∧
    load_jsonl [Line.obj [("input", JVal.str "x"), ("output", JVal.str "y")]] =
      Except.ok ["### Input:\nx\n\n### Output:\ny"] ∧
    load_jsonl [Line.obj [("text", JVal.str "t")]] = Except.ok ["t"] ∧
    load_jsonl [Line.obj [("k", JVal.num 7)]] = Except.ok ["\x7b\"k\": 7\x7d"] :=
  ⟨jsonl_key_precedence.1 _ (by decide) (by decide),
   jsonl_key_precedence.2.1 _ (by decide) (by decide) (by decide),
   jsonl_key_precedence.2.2.1 _ (by decide) (by decide) (by decide),
   jsonl_key_precedence.2.2.2.1 _ (by decide) (by decide) (by decide)⟩

/-- C5: a record-json input containing a malformed line fails with the
decode error carrying the first malformed line (every line before it is
well-formed), rather than succeeding or failing with another error. -/
theorem malformed_line_error (file : List Line)
    (h : ∃ l ∈ file, isMalformedLine l = true) :
    ∃ raw pre post, file = pre ++ Line.malformed raw :: post ∧
      (∀ l ∈ pre, isMalformedLine l = false) ∧
      load_jsonl file = Except.error (IngestError.malformedRecord raw) := by
  induction file with
  | nil => simp at h
  | cons l rest ih =>
    cases l with
    | malformed raw =>
      exact ⟨raw, [], rest, rfl, by simp, rfl⟩
    | blank =>
      have h' : ∃ x ∈ rest, isMalformedLine x = true := by
        obtain ⟨x, hx, hxm⟩ := h
        rcases List.mem_cons.mp hx with rfl | hx'
        · simp [isMalformedLine] at hxm
        · exact ⟨x, hx', hxm⟩
      obtain ⟨raw, pre, post, heq, hpre, hload⟩ := ih h'
      refine ⟨raw, Line.blank :: pre, post, by rw [heq]; rfl, ?_, ?_⟩
      · intro x hx
        rcases List.mem_cons.mp hx with rfl | hx'
        · rfl
        · exact hpre x hx'
      · simpa [load_jsonl] using hload
    | obj o =>
      have h' : ∃ x ∈ rest, isMalformedLine x = true := by
        obtain ⟨x, hx, hxm⟩ := h
        rcases List.mem_cons.mp hx with rfl | hx'
        · simp [isMalformedLine] at hxm
        · exact ⟨x, hx', hxm⟩
      obtain ⟨raw, pre, post, heq, hpre, hload⟩ := ih h'
      refine ⟨raw, Line.obj o :: pre, post, by rw [heq]; rfl, ?_, ?_⟩
      · intro x hx
        rcases List.mem_cons.mp hx with rfl | hx'
        · rfl
        · exact hpre x hx'
      · simp [load_jsonl, hload]

/-- Witness for C5 on a concrete file with a malformed second line. -/
theorem malformed_line_error_witness :
    ∃ raw pre post,
      [Line.obj [("text", JVal.str "a")], Line.malformed "not json"] =
        pre ++ Line.malformed raw :: post ∧
      (∀ l ∈ pre, isMalformedLine l = false) ∧
      load_jsonl [Line.obj [("text", JVal.str "a")], Line.malformed "not json"] =
        Except.error (IngestError.malformedRecord raw) :=
  malformed_line_error _ ⟨Line.malformed "not json", by decide, rfl⟩

/-- C6, counterexample: the record-json loader keeps a record whose text
is empty after stripping — the line with JSON object with a bare empty
`text` value produces the record `""`, so the claimed non-blank invariant
is false for the Ingestor as a whole. -/
theorem record_nonblank_counterexample :
    load_jsonl [Line.obj [("text", JVal.str "")]] = Except.ok [""] ∧
    ¬ (∀ ts, load_jsonl [Line.obj [("text", JVal.str "")]] = Except.ok ts →
        ∀ t ∈ ts, pyIsBlank t = false) := by
  refine ⟨rfl, fun hcl => ?_⟩
  have := hcl [""] rfl "" (by simp)
  simp [pyIsBlank] at this

/-- C6, amended: the tabular and free-text loaders only emit records that
are non-blank after stripping (blank candidates are dropped), and the
record-json loader drops whitespace-only raw lines; but a record-json
object may still produce a whitespace-only record text (see the
counterexample). -/
theorem record_nonblank_invariant_amended :
    (∀ (rows : List (List (String × Option String))) (t : String),
        t ∈ load_csv rows → pyIsBlank t = false) ∧
    (∀ (full_text : String) (chunk_size : ℕ) (t : String),
        t ∈ load_txt full_text chunk_size → pyIsBlank t = false) ∧
    (∀ rest, load_jsonl (Line.blank :: rest) = load_jsonl rest) := by
  refine ⟨?_, ?_, fun rest => rfl⟩
  · intro rows t ht
    rw [load_csv, List.mem_filterMap] at ht
    obtain ⟨row, _, hmap⟩ := ht
    set parts := row.filterMap (fun kv =>
      match kv.2 with
      | none => none
      | some v => if ¬(v = "") ∧ pyIsBlank v = false then some (kv.1 ++ ": " ++ v) else none)
      with hparts
    by_cases hemp : parts.isEmpty
    · simp [hemp] at hmap
    · simp only [hemp, if_neg, Bool.false_eq_true, not_false_eq_true, if_false,
        Option.some.injEq] at hmap
      obtain ⟨p, rest', hcons⟩ : ∃ p rest', parts = p :: rest' := by
        cases hp : parts with
        | nil => rw [hp] at hemp; simp at hemp
        | cons a b => exact ⟨a, b, rfl⟩
      have hpmem : p ∈ parts := by rw [hcons]; exact List.mem_cons_self _ _
      have hpshape : ∃ k v, p = k ++ ": " ++ v := by
        rw [hparts, List.mem_filterMap] at hpmem
        obtain ⟨kv, _, hkv⟩ := hpmem
        cases hv : kv.2 with
        | none =>
          rw [hv] at hkv
          have hkv' : (none : Option String) = some p := hkv
          cases hkv'
        | some v =>
          rw [hv] at hkv
          have hkv' : (if ¬(v = "") ∧ pyIsBlank v = false then some (kv.1 ++ ": " ++ v)
              else none) = some p := hkv
          by_cases hc : ¬(v = "") ∧ pyIsBlank v = false
          · rw [if_pos hc] at hkv'
            exact ⟨kv.1, v, (Option.some.inj hkv').symm⟩
          · rw [if_neg hc] at hkv'; cases hkv'
      obtain ⟨k, v, hpkv⟩ := hpshape
      rw [← hmap, hcons]
      exact pyJoin_not_blank p rest' (hpkv ▸ csv_part_not_blank k v)
  · intro full_text chunk_size t ht
    rw [load_txt, List.mem_filterMap] at ht
    obtain ⟨chunk, _, hmap⟩ := ht
    by_cases hb : pyIsBlank (String.mk chunk) = true
    · rw [if_pos hb] at hmap; cases hmap
    · rw [if_neg hb] at hmap
      cases hmap
      exact Bool.not_eq_true _ ▸ hb

/-- Witness for the amended C6 on concrete tabular and free-text inputs. -/
theorem record_nonblank_invariant_amended_witness :
    pyIsBlank "a: 1" = false ∧ pyIsBlank "hi" = false :=
  ⟨record_nonblank_invariant_amended.1 [[("a", some "1")]] "a: 1" (by decide),
   record_nonblank_invariant_amended.2.1 "hi" 2048 "hi" (by decide)⟩

/-! ## Claim theorems: ETA -/

/-- C7, counterexample: at `current_step = 2, total_steps = 1,
elapsed_time = 10` the code returns a negative rendering (`"-1:59:55"`),
so the unconditional non-negativity in the claim is false (all values
involved are exactly representable floats, so the ℚ model is exact
here). -/
theorem eta_claim_counterexample : ¬ etaClaimAt 2 1 10 := by
  intro h
  have h1 : 0 ≤ pyInt ((10 : ℚ) / ((2 : ℤ) : ℚ) * (((1 : ℤ) - (2 : ℤ) : ℤ) : ℚ)) := by
    simp only [etaClaimAt] at h
    rw [if_neg (by decide : ¬(2 : ℤ) = 0)] at h
    exact h.1
  have hval : (10 : ℚ) / ((2 : ℤ) : ℚ) * (((1 : ℤ) - (2 : ℤ) : ℤ) : ℚ) = ((-5 : ℤ) : ℚ) := by
    push_cast
    norm_num
  rw [hval] at h1
  rw [pyInt, if_pos (by push_cast; norm_num : ((-5 : ℤ) : ℚ) < 0), Int.ceil_intCast] at h1
  norm_num at h1

/-- C7, amended: the sentinel `"N/A"` is returned exactly at step 0; and
whenever `1 ≤ current_step ≤ total_steps` and the elapsed time is
non-negative, the result is the `HH:MM:SS` rendering of the non-negative
truncated product of the per-step average and the remaining steps. -/
theorem eta_contract_amended :
    (∀ (total_steps : ℤ) (elapsed_time : ℚ),
        calculate_eta 0 total_steps elapsed_time = "N/A") ∧
    (∀ (current_step total_steps : ℤ) (elapsed_time : ℚ),
        1 ≤ current_step → current_step ≤ total_steps → 0 ≤ elapsed_time →
        0 ≤ pyInt (elapsed_time / (current_step : ℚ) *
              ((total_steps - current_step : ℤ) : ℚ)) ∧
        calculate_eta current_step total_steps elapsed_time =
          formatHMS (pyInt (elapsed_time / (current_step : ℚ) *
            ((total_steps - current_step : ℤ) : ℚ)))) := by
  constructor
  · intro t e
    rfl
  · intro c t e hc hct he
    have hq : 0 ≤ e / (c : ℚ) * ((t - c : ℤ) : ℚ) := by
      apply mul_nonneg
      · apply div_nonneg he
        exact_mod_cast (by omega : (0 : ℤ) ≤ c)
      · exact_mod_cast (by omega : (0 : ℤ) ≤ t - c)
    refine ⟨?_, ?_⟩
    · rw [pyInt, if_neg (not_lt.mpr hq)]
      exact Int.floor_nonneg.mpr hq
    · simp only [calculate_eta]
      rw [if_neg (by omega : ¬ c = 0)]

/-- Witness for the amended C7 at concrete inputs. -/
theorem eta_contract_amended_witness :
    calculate_eta 0 5 3 = "N/A" ∧
    (0 ≤ pyInt ((10 : ℚ) / ((2 : ℤ) : ℚ) * (((10 : ℤ) - (2 : ℤ) : ℤ) : ℚ)) ∧
      calculate_eta 2 10 10 =
        formatHMS (pyInt ((10 : ℚ) / ((2 : ℤ) : ℚ) * (((10 : ℤ) - (2 : ℤ) : ℤ) : ℚ)))) :=
  ⟨eta_contract_amended.1 5 3,
   eta_contract_amended.2 2 10 10 (by decide) (by decide) (by decide)⟩

/-! ## Helper lemmas: substring search over newline-joined names -/

theorem isPrefixOf_eq_true {l₁ l₂ : List Char} : l₁.isPrefixOf l₂ = true ↔ l₁ <+: l₂ := by
  simp [ List.isPrefixOf_iff_prefix]

theorem containsSub_iff (p : List Char) (l : List Char) :
    containsSub p l = true ↔ p <:+: l := by
  induction l with
  | nil => simp [containsSub, List.isEmpty_iff]
  | cons c rest ih =>
    rw [containsSub, Bool.or_eq_true, isPrefixOf_eq_true, ih, List.infix_cons_iff]

theorem prefix_elim {p a b : List Char} {c : Char} (hc : c ∉ p) :
    p <+: a ++ c :: b → p <+: a := by
  induction p generalizing a with
  | nil => intro _; exact List.nil_prefix
  | cons q p' ih =>
    intro h
    cases a with
    | nil =>
      rw [List.nil_append, List.cons_prefix_cons] at h
      exact absurd (by rw [← h.1]; exact List.mem_cons_self _ _) hc
    | cons x a' =>
      rw [List.cons_append, List.cons_prefix_cons] at h
      obtain ⟨h1, h2⟩ := h
      have hcp' : c ∉ p' := fun hmem => hc (List.mem_cons_of_mem _ hmem)
      rw [List.cons_prefix_cons]
      exact ⟨h1, ih hcp' h2⟩

/-- A pattern that does not contain the separator character occurs in
`a ++ c :: b` exactly when it occurs in `a` or in `b`. -/
theorem infix_append_cons_iff {p b : List Char} {c : Char} (hc : c ∉ p) (hp : p ≠ []) :
    ∀ a : List Char, (p <:+: a ++ c :: b ↔ p <:+: a ∨ p <:+: b) := by
  intro a
  induction a with
  | nil =>
    rw [List.nil_append, List.infix_cons_iff]
    constructor
    · rintro (hpre | hinf)
      · cases p with
        | nil => exact absurd rfl hp
        | cons q p' =>
          rw [List.cons_prefix_cons] at hpre
          exact absurd (by rw [← hpre.1]; exact List.mem_cons_self _ _) hc
      · exact Or.inr hinf
    · rintro (ha | hb)
      · exact absurd (List.infix_nil.mp ha) hp
      · exact Or.inr hb
  | cons x a' ih =>
    rw [List.cons_append, List.infix_cons_iff]
    constructor
    · rintro (hpre | hinf)
      · rw [← List.cons_append] at hpre
        obtain ⟨t, ht⟩ := prefix_elim hc hpre
        exact Or.inl ⟨[], t, by simpa using ht⟩
      · rcases ih.mp hinf with h | h
        · exact Or.inl (List.infix_cons h)
        · exact Or.inr h
    · rintro (ha | hb)
      · rcases List.infix_cons_iff.mp ha with hpre | hinf
        · have hext : x :: a' <+: x :: (a' ++ c :: b) := by
            rw [List.cons_prefix_cons]
            exact ⟨rfl, List.prefix_append a' (c :: b)⟩
          exact Or.inl (hpre.trans hext)
        · obtain ⟨s, t, hst⟩ := hinf
          exact Or.inr ⟨s, t ++ c :: b, by rw [← hst]; simp⟩
      · obtain ⟨s, t, hst⟩ := hb
        exact Or.inr ⟨a' ++ c :: s, t, by rw [← hst]; simp⟩

/-- Occurrence in the newline-joined name list is occurrence in one of
the names, for a non-empty pattern without a newline. -/
theorem containsSub_pyJoin (p : String) (hp : p.data ≠ []) (hnl : '\n' ∉ p.data)
    (names : List String) :
    containsSub p.data (pyJoin "\n" names).data = true ↔
      ∃ n ∈ names, containsSub p.data n.data = true := by
  induction names with
  | nil => simp [pyJoin, containsSub, List.isEmpty_iff, hp]
  | cons n ns ih =>
    cases ns with
    | nil => simp [pyJoin]
    | cons m ns' =>
      have hdata : (pyJoin "\n" (n :: m :: ns')).data =
          n.data ++ '\n' :: (pyJoin "\n" (m :: ns')).data := by
        show (n ++ "\n" ++ pyJoin "\n" (m :: ns')).data = _
        rw [strData_append, strData_append]
        simp
      rw [containsSub_iff, hdata, infix_append_cons_iff hnl hp n.data,
        ← containsSub_iff, ← containsSub_iff, ih]
      constructor
      · rintro (h | ⟨x, hx, hcx⟩)
        · exact ⟨n, List.mem_cons_self _ _, h⟩
        · exact ⟨x, List.mem_cons_of_mem _ hx, hcx⟩
      · rintro ⟨x, hx, hcx⟩
        rcases List.mem_cons.mp hx with rfl | hx'
        · exact Or.inl hcx
        · exact Or.inr ⟨x, hx', hcx⟩

/-! ## Claim theorem: LoRA target heuristic -/

/-- C9: the target-module selection applies the ordered heuristic on the
set of module names: both query and value projection patterns present →
the four attention projections; else a fused attention pattern → that
single module; else a fused query-key-value pattern → that module; else
the query/value fallback. -/
theorem lora_target_heuristic (names : List String) :
    (((∃ n ∈ names, containsSub "q_proj".data n.data = true) ∧
      (∃ n ∈ names, containsSub "v_proj".data n.data = true)) →
      suggest_lora_target_modules names = ["q_proj", "k_proj", "v_proj", "o_proj"]) ∧
    (¬((∃ n ∈ names, containsSub "q_proj".data n.data = true) ∧
       (∃ n ∈ names, containsSub "v_proj".data n.data = true)) →
      (∃ n ∈ names, containsSub "c_attn".data n.data = true) →
      suggest_lora_target_modules names = ["c_attn"]) ∧
    (¬((∃ n ∈ names, containsSub "q_proj".data n.data = true) ∧
       (∃ n ∈ names, containsSub "v_proj".data n.data = true)) →
      ¬(∃ n ∈ names, containsSub "c_attn".data n.data = true) →
      (∃ n ∈ names, containsSub "query_key_value".data n.data = true) →
      suggest_lora_target_modules names = ["query_key_value"]) ∧
    (¬((∃ n ∈ names, containsSub "q_proj".data n.data = true) ∧
       (∃ n ∈ names, containsSub "v_proj".data n.data = true)) →
      ¬(∃ n ∈ names, containsSub "c_attn".data n.data = true) →
      ¬(∃ n ∈ names, containsSub "query_key_value".data n.data = true) →
      suggest_lora_target_modules names = ["q_proj", "v_proj"]) := by
  have hq := containsSub_pyJoin "q_proj" (by decide) (by decide) names
  have hv := containsSub_pyJoin "v_proj" (by decide) (by decide) names
  have hc := containsSub_pyJoin "c_attn" (by decide) (by decide) names
  have hqkv := containsSub_pyJoin "query_key_value" (by decide) (by decide) names
  refine ⟨?_, ?_, ?_, ?_⟩
  · rintro ⟨h1, h2⟩
    simp only [suggest_lora_target_modules]
    rw [if_pos (Bool.and_eq_true_iff.mpr ⟨hq.mpr h1, hv.mpr h2⟩)]
  · intro hneg h1
    have hcond : (containsSub "q_proj".data (pyJoin "\n" names).data &&
        containsSub "v_proj".data (pyJoin "\n" names).data) = false :=
      Bool.eq_false_iff.mpr fun hab =>
        hneg ⟨hq.mp (Bool.and_eq_true_iff.mp hab).1, hv.mp (Bool.and_eq_true_iff.mp hab).2⟩
    simp only [suggest_lora_target_modules]
    rw [if_neg (by simp [hcond]), if_pos (hc.mpr h1)]
  · intro hneg hnc h1
    have hcond : (containsSub "q_proj".data (pyJoin "\n" names).data &&
        containsSub "v_proj".data (pyJoin "\n" names).data) = false :=
      Bool.eq_false_iff.mpr fun hab =>
        hneg ⟨hq.mp (Bool.and_eq_true_iff.mp hab).1, hv.mp (Bool.and_eq_true_iff.mp hab).2⟩
    have hnc' : containsSub "c_attn".data (pyJoin "\n" names).data = false :=
      Bool.eq_false_iff.mpr fun hcc => hnc (hc.mp hcc)
    simp only [suggest_lora_target_modules]
    rw [if_neg (by simp [hcond]), if_neg (by simp [hnc']), if_pos (hqkv.mpr h1)]
  · intro hneg hnc hnk
    have hcond : (containsSub "q_proj".data (pyJoin "\n" names).data &&
        containsSub "v_proj".data (pyJoin "\n" names).data) = false :=
      Bool.eq_false_iff.mpr fun hab =>
        hneg ⟨hq.mp (Bool.and_eq_true_iff.mp hab).1, hv.mp (Bool.and_eq_true_iff.mp hab).2⟩
    have hnc' : containsSub "c_attn".data (pyJoin "\n" names).data = false :=
      Bool.eq_false_iff.mpr fun hcc => hnc (hc.mp hcc)
    have hnk' : containsSub "query_key_value".data (pyJoin "\n" names).data = false :=
      Bool.eq_false_iff.mpr fun hcc => hnk (hqkv.mp hcc)
    simp only [suggest_lora_target_modules]
    rw [if_neg (by simp [hcond]), if_neg (by simp [hnc']), if_neg (by simp [hnk'])]

/-- Witness for C9, one module-name list per heuristic branch. -/
theorem lora_target_heuristic_witness :
    suggest_lora_target_modules ["model.layers.0.self_attn.q_proj",
        "model.layers.0.self_attn.v_proj"] = ["q_proj", "k_proj", "v_proj", "o_proj"] ∧
    suggest_lora_target_modules ["transformer.h.0.attn.c_attn"] = ["c_attn"] ∧
    suggest_lora_target_modules ["transformer.h.0.self_attention.query_key_value"] =
      ["query_key_value"] ∧
    suggest_lora_target_modules ["encoder.layer.0.dense"] = ["q_proj", "v_proj"] :=
  ⟨(lora_target_heuristic _).1 (by decide),
   (lora_target_heuristic _).2.1 (by decide) (by decide),
   (lora_target_heuristic _).2.2.1 (by decide) (by decide) (by decide),
   (lora_target_heuristic _).2.2.2 (by decide) (by decide) (by decide)⟩

/-! ## Claim theorems: export pipeline -/

/-- C3: starting from an export directory with no `*_f16_temp` leftover
and a requested output path that is not itself a temp name: if the
quantizer probe finds no binary and the F16 conversion succeeds, the
pipeline exits successfully with the F16 data at the requested output
path and no `*_f16_temp` file on disk; if a binary is found and
quantization succeeds (the temp path being distinct from the output
path, as it is for any `.gguf` output), the pipeline exits successfully
with the quantized data at the requested output path and the
`*_f16_temp` intermediate deleted. -/
theorem export_pipeline_cleanup (fs : FS) (model_dir output_file : String)
    (hmodel : (fs model_dir).isSome = true)
    (hout : isF16TempName output_file = false)
    (hclean : ∀ p, isF16TempName p = true → fs p = none) :
    (check_llama_cpp fs = none →
      (exportMain fs model_dir output_file true true).1 = true ∧
      (exportMain fs model_dir output_file true true).2 output_file = some FileData.f16 ∧
      (∀ p, isF16TempName p = true →
        (exportMain fs model_dir output_file true true).2 p = none)) ∧
    (∀ b, check_llama_cpp fs = some b →
      f16TempPath output_file ≠ output_file →
      (exportMain fs model_dir output_file true true).1 = true ∧
      (exportMain fs model_dir output_file true true).2 output_file = some FileData.quant ∧
      (∀ p, isF16TempName p = true →
        (exportMain fs model_dir output_file true true).2 p = none)) := by
  obtain ⟨v, hv⟩ : ∃ v, fs model_dir = some v := Option.isSome_iff_exists.mp hmodel
  constructor
  · intro hnone
    simp only [exportMain, hv, hnone, Option.isNone_some, Bool.false_eq_true, if_false,
      Option.isNone_none, if_true]
    rw [if_neg (by simp)]
    have hw : fsWrite fs output_file FileData.f16 output_file = some FileData.f16 := by
      simp [fsWrite]
    rw [if_pos (by rw [hw]; rfl)]
    refine ⟨rfl, hw, ?_⟩
    intro p hp
    have hne : p ≠ output_file := by
      intro heq
      rw [heq, hout] at hp
      cases hp
    simp only [fsWrite, if_neg hne]
    exact hclean p hp
  · intro b hb hne
    have hosym := Ne.symm hne
    refine ⟨?_, ?_, ?_⟩
    · simp [exportMain, hv, hb, fsWrite, fsRemove, hne, hosym]
    · simp [exportMain, hv, hb, fsWrite, fsRemove, hne, hosym]
    · intro p hp
      have hpo : p ≠ output_file := by
        intro heq
        rw [heq, hout] at hp
        cases hp
      by_cases hpt : p = f16TempPath output_file
      · simp [exportMain, hv, hb, fsWrite, fsRemove, hne, hosym, hpt]
      · simp [exportMain, hv, hb, fsWrite, fsRemove, hne, hosym, hpt, hpo, hclean p hp]

/-- Witness for C3: a run without a quantizer binary and a run with one,
both on the output path `model.gguf`. -/
theorem export_pipeline_cleanup_witness :
    ((exportMain fsNoQuant "merged" "model.gguf" true true).1 = true ∧
      (exportMain fsNoQuant "merged" "model.gguf" true true).2 "model.gguf" =
        some FileData.f16 ∧
      (exportMain fsNoQuant "merged" "model.gguf" true true).2 "model_f16_temp.gguf" = none) ∧
    ((exportMain fsWithQuant "merged" "model.gguf" true true).1 = true ∧
      (exportMain fsWithQuant "merged" "model.gguf" true true).2 "model.gguf" =
        some FileData.quant ∧
      (exportMain fsWithQuant "merged" "model.gguf" true true).2 "model_f16_temp.gguf" = none) := by
  have hclean1 : ∀ p, isF16TempName p = true → fsNoQuant p = none := by
    intro p hp
    by_cases h : p = "merged"
    · rw [h] at hp
      cases hp
    · simp [fsNoQuant, h]
  have hclean2 : ∀ p, isF16TempName p = true → fsWithQuant p = none := by
    intro p hp
    by_cases h : p = "merged" ∨ p = "ml_core/llama.cpp/quantize"
    · rcases h with h | h <;> rw [h] at hp <;> cases hp
    · simp [fsWithQuant, h]
  have h1 := (export_pipeline_cleanup fsNoQuant "merged" "model.gguf"
    (by decide) (by decide) hclean1).1 (by decide)
  have h2 := (export_pipeline_cleanup fsWithQuant "merged" "model.gguf"
    (by decide) (by decide) hclean2).2 "ml_core/llama.cpp/quantize" (by decide) (by decide)
  exact ⟨⟨h1.1, h1.2.1, h1.2.2 "model_f16_temp.gguf" (by decide)⟩,
    ⟨h2.1, h2.2.1, h2.2.2 "model_f16_temp.gguf" (by decide)⟩⟩

end Mobius
